import Mathlib

/-
Verification of the image-partitioning core of
src/Backend/lambda/lambda_function.py
(functions estimate_size_per_pixel and split_image, lines 22-94).

Modelling conventions (shallow embedding):
* Image geometry is exact: widths, heights and crop coordinates are
  rationals (Python float arithmetic on these quantities is modelled by
  exact rational arithmetic; the fixed literals 0.1, 0.5, 0.7 are exact
  binary-representable or treated as their decimal value 7/10).
* The PNG encoder is external to the algorithm: a crop is determined by
  its box and resize target, so the encoded byte length is an oracle
  `enc : Part -> Nat` carried in the configuration.
* Python float `math.sqrt` is likewise carried as an oracle
  `rsqrt : Rat -> Rat`; the properties the algorithm relies on
  (nonnegativity, and `1 <= sqrt f` for `f > 1`) appear as explicit
  hypotheses where a claim needs them.
* Python `int()` truncates toward zero: `pyInt` below.
* `while True` is modelled with explicit fuel; `fuelBound` is proved
  sufficient, which is exactly the termination claim.
-/

namespace WaterSplit

/-- Python `int()` applied to a float: truncation toward zero. -/
def pyInt (q : ℚ) : ℤ := if 0 ≤ q then ⌊q⌋ else ⌈q⌉

/-- One crop produced by `split_image`: the crop box handed to
`img.crop((left, upper, right, lower))` followed by
`part.resize((outW, outH))`.  Together with the source image these
data determine the encoded bytes, so the encoder oracle reads them. -/
structure Part where
  left : ℚ
  top : ℚ
  right : ℚ
  bottom : ℚ
  outW : ℤ
  outH : ℤ
deriving DecidableEq, Repr, Inhabited

/-- The inputs of `split_image`: the image (its pixel content abstracted
into the encoder oracle `enc`, its dimensions `W`, `H` explicit), the
float square root, and the keyword parameters of the Python function. -/
structure Cfg where
  enc : Part → ℕ
  rsqrt : ℚ → ℚ
  W : ℕ
  H : ℕ
  overlap : ℚ
  max_size : ℕ
  base_upscale_factor : ℚ
  min_grid_size : ℤ

/-- Outcome of `split_image`: the single-element list `[img]` from the
degenerate fallback (line 42), a list of crops, or the `ValueError`
that PIL raises from `resize` on line 69 when a computed target
dimension is below 1 (the call has no handler, so the exception
propagates out of `split_image`). -/
inductive SplitResult where
  | whole
  | parts (l : List Part)
  | valueError
deriving DecidableEq

/-- Number of elements of the returned Python list (1 for the `[img]`
fallback; 0 when the call raises instead of returning). -/
def numParts : SplitResult → ℕ
  | .whole => 1
  | .parts l => l.length
  | .valueError => 0

/-- The crops of a result (`[]` for the unsplit whole image and for a
raised call). -/
def partsOf : SplitResult → List Part
  | .whole => []
  | .parts l => l
  | .valueError => []

/-- The sample crop of `estimate_size_per_pixel` (lines 25-27):
`img.crop((0, 0, min(test_size, w), min(test_size, h)))`, encoded at its
own size (no resize). -/
def samplePart (W H t : ℕ) : Part :=
  ⟨0, 0, (min t W : ℕ), (min t H : ℕ), (min t W : ℕ), (min t H : ℕ)⟩

/-- Lines 22-32: `estimate_size_per_pixel`.  Returns
`S_small / P_small` when the clamped sample area `P_small` is positive
and `0` otherwise. -/
def estimate_size_per_pixel (enc : Part → ℕ) (W H t : ℕ) : ℚ :=
  if 0 < min t W * min t H
  then (enc (samplePart W H t) : ℚ) / ((min t W * min t H : ℕ) : ℚ)
  else 0

/-- Line 73: the enforced ceiling `max_size * safety_factor` with
`safety_factor = 0.7` (line 46). -/
def threshold (c : Cfg) : ℚ := (c.max_size : ℚ) * (7 / 10)

/-- Line 48 (also the reset on line 91):
`M = max(min_grid_size, ceil(width * overlap_factor / max_dim))` with
`overlap_factor = 1 + 2 * overlap` and `max_dim = 8000`. -/
def seedM (c : Cfg) : ℤ :=
  max c.min_grid_size ⌈(c.W : ℚ) * (1 + 2 * c.overlap) / 8000⌉

/-- Line 49 (also line 92): the seed for `N`, from the height. -/
def seedN (c : Cfg) : ℤ :=
  max c.min_grid_size ⌈(c.H : ℚ) * (1 + 2 * c.overlap) / 8000⌉

/-- Lines 53-69: the crop of grid cell `(i, j)`.
`gw = width / M`, `gh = height / N`, margins `gw * overlap`,
`gh * overlap`; the box is clamped into the image and the resize target
is `int((right - left) * upscale)` by `int((lower - upper) * upscale)`. -/
def cellPart (W H : ℕ) (M N : ℤ) (f u : ℚ) (i j : ℕ) : Part :=
  let gw : ℚ := (W : ℚ) / (M : ℚ)
  let gh : ℚ := (H : ℚ) / (N : ℚ)
  let ow := gw * f
  let oh := gh * f
  let l := max 0 ((i : ℚ) * gw - ow)
  let t := max 0 ((j : ℚ) * gh - oh)
  let r := min (W : ℚ) (((i : ℚ) + 1) * gw + ow)
  let b := min (H : ℚ) (((j : ℚ) + 1) * gh + oh)
  ⟨l, t, r, b, pyInt ((r - l) * u), pyInt ((b - t) * u)⟩

/-- Lines 60-61: `for i in range(M): for j in range(N)`, in evaluation
order (i outer, j inner; `range` of a nonpositive count is empty). -/
def gridCells (W H : ℕ) (M N : ℤ) (f u : ℚ) : List Part :=
  (List.range M.toNat).flatMap
    (fun i => (List.range N.toNat).map (fun j => cellPart W H M N f u i j))

/-- Result of one grid evaluation pass (lines 60-78): `raised` when a
cell is reached whose resize target has a dimension below 1 (line 69
raises `ValueError`), `overflow` when a cell's encoded size exceeds the
ceiling (the accepted prefix and the offending size), `ok` when every
cell passed. -/
inductive CellsOut where
  | raised
  | overflow (parts : List Part) (s : ℕ)
  | ok (parts : List Part)
deriving DecidableEq

/-- Lines 60-78: evaluate the cells in order.  Each cell is cropped and
resized first — `resize((new_width, new_height), LANCZOS)` on line 69
raises `ValueError` if `new_width < 1` or `new_height < 1`, aborting
the whole call — then encoded and measured; the first overflow
(`if part_size > max_size * safety_factor: break`, plus the outer
break) stops the pass with the crops accepted before it (the offending
crop itself is not appended). -/
def evalCellsAux (enc : Part → ℕ) (thr : ℚ) :
    List Part → List Part → CellsOut
  | [], acc => .ok acc.reverse
  | p :: rest, acc =>
    if p.outW ≤ 0 ∨ p.outH ≤ 0 then .raised
    else if thr < (enc p : ℚ) then .overflow acc.reverse (enc p)
    else evalCellsAux enc thr rest (p :: acc)

/-- Lines 83-86: the refinement update
`int(M * sqrt(part_size / (max_size * safety_factor))) + 1`. -/
def nextCount (c : Cfg) (k : ℤ) (s : ℕ) : ℤ :=
  pyInt ((k : ℚ) * c.rsqrt ((s : ℚ) / threshold c)) + 1

/-- Lines 52-94: the `while True` loop, with explicit fuel.  One
iteration: build and measure the grid; a degenerate resize target
raises out of the whole call (`valueError`); on success return the
crops; on overflow update `M, N`; if the current cell dimensions fell
below 500 either lower the upscale factor by 0.5 and reseed `M, N`
(when `upscale > 1.0`) or give up returning the partial list. -/
def splitLoop (c : Cfg) : ℕ → ℤ → ℤ → ℚ → Option SplitResult
  | 0, _, _, _ => none
  | fuel + 1, M, N, u =>
    match evalCellsAux c.enc (threshold c) (gridCells c.W c.H M N c.overlap u) [] with
    | .raised => some SplitResult.valueError
    | .ok parts => some (SplitResult.parts parts)
    | .overflow parts s =>
      if (c.W : ℚ) / (M : ℚ) < 500 ∨ (c.H : ℚ) / (N : ℚ) < 500 then
        if 1 < u then splitLoop c fuel (seedM c) (seedN c) (u - 1 / 2)
        else some (SplitResult.parts parts)
      else splitLoop c fuel (nextCount c M s) (nextCount c N s) u

/-- The number of times the loop can lower the upscale factor, plus
the remaining levels are counted by `levelCount + 1`:
each reduction subtracts 0.5 while the factor exceeds 1, so at most
`ceil((b - 1) / 0.5)` reductions happen. -/
def levelCount (b : ℚ) : ℕ := (⌈2 * (b - 1)⌉).toNat

/-- Within one upscale level the continue branch forces `M <= W / 500`,
so at most `W / 500 + 1` iterations happen per level. -/
def colBudget (c : Cfg) : ℕ := c.W / 500 + 1

/-- Fuel sufficient for the loop (proved below): one budget of
iterations per upscale level. -/
def fuelBound (c : Cfg) : ℕ :=
  levelCount c.base_upscale_factor * (colBudget c + 1) + colBudget c + 1

/-- Lines 34-94: `split_image`.  Estimates bytes-per-pixel with a
5000-pixel sample (line 39); on a zero estimate returns the whole image
as the single part `[img]` (lines 40-42); otherwise seeds the grid and
runs the refinement loop. -/
def split_image (c : Cfg) : Option SplitResult :=
  if estimate_size_per_pixel c.enc c.W c.H 5000 = 0 then some SplitResult.whole
  else splitLoop c (fuelBound c) (seedM c) (seedN c) c.base_upscale_factor

/-- Termination measure of the loop: lexicographic
(remaining upscale levels, remaining grid growth inside a level),
flattened into one natural number. -/
def loopMeasure (c : Cfg) (M : ℤ) (u : ℚ) : ℕ :=
  levelCount u * (colBudget c + 1) + ((colBudget c : ℤ) - M).toNat



/-! ### Basic facts about the cell evaluation pass -/

theorem floor_eq_of (q : ℚ) (n : ℤ) (h1 : (n : ℚ) ≤ q) (h2 : q < n + 1) :
    ⌊q⌋ = n := by
  rw [Int.floor_eq_iff]
  exact ⟨h1, by exact_mod_cast h2⟩

theorem ceil_eq_of (q : ℚ) (n : ℤ) (h1 : (n : ℚ) - 1 < q) (h2 : q ≤ n) :
    ⌈q⌉ = n := by
  rw [Int.ceil_eq_iff]
  exact ⟨by exact_mod_cast h1, h2⟩

theorem not_degenerate (p : Part) (h : 1 ≤ p.outW ∧ 1 ≤ p.outH) :
    ¬(p.outW ≤ 0 ∨ p.outH ≤ 0) := by omega

theorem pyInt_ge_one (q : ℚ) (h : 1 ≤ q) : 1 ≤ pyInt q := by
  rw [pyInt, if_pos (by linarith)]
  exact Int.le_floor.mpr (by exact_mod_cast h)

theorem evalCellsAux_ok_all (enc : Part → ℕ) (thr : ℚ) :
    ∀ cells acc, (∀ p ∈ cells, 1 ≤ p.outW ∧ 1 ≤ p.outH) →
      (∀ p ∈ cells, (enc p : ℚ) ≤ thr) →
      evalCellsAux enc thr cells acc = .ok (acc.reverse ++ cells)
  | [], acc, _, _ => by simp [evalCellsAux]
  | p :: rest, acc, hd, hs => by
    have hp0 : ¬(p.outW ≤ 0 ∨ p.outH ≤ 0) := not_degenerate p (hd p (by simp))
    have hp : ¬ thr < (enc p : ℚ) := not_lt.mpr (hs p (by simp))
    simp only [evalCellsAux, if_neg hp0, if_neg hp]
    rw [evalCellsAux_ok_all enc thr rest (p :: acc)
      (fun q hq => hd q (by simp [hq])) (fun q hq => hs q (by simp [hq]))]
    simp

theorem evalCellsAux_skip (enc : Part → ℕ) (thr : ℚ) :
    ∀ l₁ l₂ acc, (∀ q ∈ l₁, 1 ≤ q.outW ∧ 1 ≤ q.outH) →
      (∀ q ∈ l₁, (enc q : ℚ) ≤ thr) →
      evalCellsAux enc thr (l₁ ++ l₂) acc = evalCellsAux enc thr l₂ (l₁.reverse ++ acc)
  | [], l₂, acc, _, _ => by simp
  | p :: rest, l₂, acc, hd, hs => by
    have hp0 : ¬(p.outW ≤ 0 ∨ p.outH ≤ 0) := not_degenerate p (hd p (by simp))
    have hp : ¬ thr < (enc p : ℚ) := not_lt.mpr (hs p (by simp))
    calc evalCellsAux enc thr ((p :: rest) ++ l₂) acc
        = evalCellsAux enc thr (rest ++ l₂) (p :: acc) := by
          simp [evalCellsAux, if_neg hp0, if_neg hp]
      _ = evalCellsAux enc thr l₂ (rest.reverse ++ (p :: acc)) :=
          evalCellsAux_skip enc thr rest l₂ (p :: acc)
            (fun q hq => hd q (by simp [hq])) (fun q hq => hs q (by simp [hq]))
      _ = evalCellsAux enc thr l₂ ((p :: rest).reverse ++ acc) := by simp

theorem evalCellsAux_head_raised (enc : Part → ℕ) (thr : ℚ) (p : Part)
    (rest acc : List Part) (hd : p.outW ≤ 0 ∨ p.outH ≤ 0) :
    evalCellsAux enc thr (p :: rest) acc = .raised := by
  simp [evalCellsAux, if_pos hd]

theorem evalCellsAux_head_overflow (enc : Part → ℕ) (thr : ℚ) (p : Part)
    (rest acc : List Part) (hd : 1 ≤ p.outW ∧ 1 ≤ p.outH)
    (hp : thr < (enc p : ℚ)) :
    evalCellsAux enc thr (p :: rest) acc = .overflow acc.reverse (enc p) := by
  simp [evalCellsAux, if_neg (not_degenerate p hd), if_pos hp]

theorem evalCellsAux_ok_eq (enc : Part → ℕ) (thr : ℚ) :
    ∀ cells acc l, evalCellsAux enc thr cells acc = .ok l →
      l = acc.reverse ++ cells
  | [], acc, l, h => by
    simp only [evalCellsAux, CellsOut.ok.injEq] at h
    simp [← h]
  | p :: rest, acc, l, h => by
    by_cases h1 : p.outW ≤ 0 ∨ p.outH ≤ 0
    · simp [evalCellsAux, if_pos h1] at h
    · by_cases h2 : thr < (enc p : ℚ)
      · simp [evalCellsAux, if_neg h1, if_pos h2] at h
      · simp only [evalCellsAux, if_neg h1, if_neg h2] at h
        rw [evalCellsAux_ok_eq enc thr rest (p :: acc) l h]
        simp

theorem evalCellsAux_ok_sizes (enc : Part → ℕ) (thr : ℚ) :
    ∀ cells acc l, (∀ q ∈ acc, (enc q : ℚ) ≤ thr) →
      evalCellsAux enc thr cells acc = .ok l → ∀ p ∈ l, (enc p : ℚ) ≤ thr
  | [], acc, l, hacc, h => by
    simp only [evalCellsAux, CellsOut.ok.injEq] at h
    subst h
    intro p hp
    exact hacc p (List.mem_reverse.mp hp)
  | q :: rest, acc, l, hacc, h => by
    by_cases h1 : q.outW ≤ 0 ∨ q.outH ≤ 0
    · simp [evalCellsAux, if_pos h1] at h
    · by_cases hq : thr < (enc q : ℚ)
      · simp [evalCellsAux, if_neg h1, if_pos hq] at h
      · simp only [evalCellsAux, if_neg h1, if_neg hq] at h
        exact evalCellsAux_ok_sizes enc thr rest (q :: acc) l
          (by
            intro r hr
            rcases List.mem_cons.mp hr with hr1 | hr1
            · exact hr1 ▸ not_lt.mp hq
            · exact hacc r hr1) h

theorem evalCellsAux_overflow_sizes (enc : Part → ℕ) (thr : ℚ) :
    ∀ cells acc l s, (∀ q ∈ acc, (enc q : ℚ) ≤ thr) →
      evalCellsAux enc thr cells acc = .overflow l s →
      (∀ p ∈ l, (enc p : ℚ) ≤ thr) ∧ thr < (s : ℚ)
  | [], acc, l, s, hacc, h => by simp [evalCellsAux] at h
  | q :: rest, acc, l, s, hacc, h => by
    by_cases h1 : q.outW ≤ 0 ∨ q.outH ≤ 0
    · simp [evalCellsAux, if_pos h1] at h
    · by_cases hq : thr < (enc q : ℚ)
      · simp only [evalCellsAux, if_neg h1, if_pos hq,
          CellsOut.overflow.injEq] at h
        refine ⟨?_, h.2 ▸ hq⟩
        intro p hp
        rw [← h.1] at hp
        exact hacc p (List.mem_reverse.mp hp)
      · simp only [evalCellsAux, if_neg h1, if_neg hq] at h
        exact evalCellsAux_overflow_sizes enc thr rest (q :: acc) l s
          (by
            intro r hr
            rcases List.mem_cons.mp hr with hr1 | hr1
            · exact hr1 ▸ not_lt.mp hq
            · exact hacc r hr1) h

theorem gridCells_length (W H : ℕ) (M N : ℤ) (f u : ℚ) :
    (gridCells W H M N f u).length = M.toNat * N.toNat := by
  simp [gridCells, Function.comp_def, mul_comm]


/-! ### Loop invariants -/

theorem splitLoop_sizes (c : Cfg) :
    ∀ fuel M N u l, splitLoop c fuel M N u = some (SplitResult.parts l) →
      ∀ p ∈ l, (c.enc p : ℚ) ≤ threshold c
  | 0, M, N, u, l, h => by simp [splitLoop] at h
  | fuel + 1, M, N, u, l, h => by
    rw [splitLoop] at h
    rcases hev : evalCellsAux c.enc (threshold c)
        (gridCells c.W c.H M N c.overlap u) [] with _ | ⟨parts, s⟩ | parts
    · rw [hev] at h
      simp at h
    · rw [hev] at h
      simp only at h
      have hfacts := evalCellsAux_overflow_sizes c.enc (threshold c) _ _ _ _
        (by intro q hq; simp at hq) hev
      by_cases hsmall : (c.W : ℚ) / (M : ℚ) < 500 ∨ (c.H : ℚ) / (N : ℚ) < 500
      · rw [if_pos hsmall] at h
        by_cases hu : 1 < u
        · rw [if_pos hu] at h
          exact splitLoop_sizes c fuel _ _ _ l h
        · rw [if_neg hu] at h
          simp only [Option.some.injEq, SplitResult.parts.injEq] at h
          exact h ▸ hfacts.1
      · rw [if_neg hsmall] at h
        exact splitLoop_sizes c fuel _ _ _ l h
    · rw [hev] at h
      simp only [Option.some.injEq, SplitResult.parts.injEq] at h
      have := evalCellsAux_ok_sizes c.enc (threshold c) _ _ _
        (by intro q hq; simp at hq) hev
      exact h ▸ this

theorem splitLoop_ne_whole (c : Cfg) :
    ∀ fuel M N u, splitLoop c fuel M N u ≠ some SplitResult.whole
  | 0, M, N, u => by simp [splitLoop]
  | fuel + 1, M, N, u => by
    rw [splitLoop]
    rcases hev : evalCellsAux c.enc (threshold c)
        (gridCells c.W c.H M N c.overlap u) [] with _ | ⟨parts, s⟩ | parts
    · simp
    · simp only
      by_cases hsmall : (c.W : ℚ) / (M : ℚ) < 500 ∨ (c.H : ℚ) / (N : ℚ) < 500
      · rw [if_pos hsmall]
        by_cases hu : 1 < u
        · rw [if_pos hu]
          exact splitLoop_ne_whole c fuel _ _ _
        · rw [if_neg hu]
          simp
      · rw [if_neg hsmall]
        exact splitLoop_ne_whole c fuel _ _ _
    · simp

theorem split_image_parts (c : Cfg) (l : List Part)
    (h : split_image c = some (SplitResult.parts l)) :
    splitLoop c (fuelBound c) (seedM c) (seedN c) c.base_upscale_factor =
      some (SplitResult.parts l) := by
  by_cases hz : estimate_size_per_pixel c.enc c.W c.H 5000 = 0
  · simp [split_image, hz] at h
  · rwa [split_image, if_neg hz] at h

theorem split_image_whole_iff (c : Cfg) :
    split_image c = some SplitResult.whole ↔
      estimate_size_per_pixel c.enc c.W c.H 5000 = 0 := by
  constructor
  · intro h
    by_contra hz
    rw [split_image, if_neg hz] at h
    exact splitLoop_ne_whole c (fuelBound c) (seedM c) (seedN c)
      c.base_upscale_factor h
  · intro hz
    simp [split_image, hz]


/-! ### C1: size bound on returned parts -/

/-- C1: whenever `split_image` returns a list of crops (in particular on
the success path, where a full grid evaluation completed with no cell
over the ceiling), every crop in the returned sequence has encoded size
at most `max_size * safety_factor`; with the default
`max_size = 10*1024*1024` that is `7340032 <= 10000000` bytes.  (The
theorem is proved for every return of the loop, which subsumes the
success path.) -/
theorem C1_success_size_bound (c : Cfg) (l : List Part) (p : Part)
    (hres : split_image c = some (SplitResult.parts l)) (hp : p ∈ l) :
    (c.enc p : ℚ) ≤ (c.max_size : ℚ) * (7 / 10) ∧
    (c.max_size = 10 * 1024 * 1024 → c.enc p ≤ 10000000) := by
  have h1 := splitLoop_sizes c (fuelBound c) _ _ _ l (split_image_parts c l hres) p hp
  rw [threshold] at h1
  refine ⟨h1, ?_⟩
  intro hdef
  rw [hdef] at h1
  have h2 : (c.enc p : ℚ) ≤ 7340032 := by
    calc (c.enc p : ℚ) ≤ ((10 * 1024 * 1024 : ℕ) : ℚ) * (7 / 10) := h1
      _ = 7340032 := by norm_num
  have h3 : c.enc p ≤ 7340032 := by exact_mod_cast h2
  omega

/-- A configuration on which the first grid attempt succeeds: every
crop encodes to 100 bytes. -/
def c1w : Cfg where
  enc := fun _ => 100
  rsqrt := id
  W := 1000
  H := 1000
  overlap := 1 / 10
  max_size := 10485760
  base_upscale_factor := 1
  min_grid_size := 4

theorem est_c1w : estimate_size_per_pixel c1w.enc c1w.W c1w.H 5000 ≠ 0 := by
  rw [estimate_size_per_pixel]
  norm_num [c1w, samplePart]

theorem seedM_c1w : seedM c1w = 4 := by
  rw [seedM, show ((c1w.W : ℚ) * (1 + 2 * c1w.overlap) / 8000) = 3 / 20 by
    norm_num [c1w]]
  rw [ceil_eq_of (3 / 20) 1 (by norm_num) (by norm_num)]
  norm_num [c1w]

theorem seedN_c1w : seedN c1w = 4 := by
  rw [seedN, show ((c1w.H : ℚ) * (1 + 2 * c1w.overlap) / 8000) = 3 / 20 by
    norm_num [c1w]]
  rw [ceil_eq_of (3 / 20) 1 (by norm_num) (by norm_num)]
  norm_num [c1w]

theorem fuelBound_c1w : fuelBound c1w = 4 := by
  rw [fuelBound, levelCount, show (2 * (c1w.base_upscale_factor - 1)) = 0 by
    norm_num [c1w]]
  norm_num [colBudget, c1w]

/-- The cell geometry of a 1000 x 1000 image with a 4 x 4 grid and
overlap 0.1: grid width 250, margin 25. -/
theorem cell1000_fields (u : ℚ) (i j : ℕ) :
    cellPart 1000 1000 4 4 (1 / 10) u i j =
      ⟨max 0 ((i : ℚ) * 250 - 25), max 0 ((j : ℚ) * 250 - 25),
       min 1000 (((i : ℚ) + 1) * 250 + 25), min 1000 (((j : ℚ) + 1) * 250 + 25),
       pyInt ((min 1000 (((i : ℚ) + 1) * 250 + 25) -
         max 0 ((i : ℚ) * 250 - 25)) * u),
       pyInt ((min 1000 (((j : ℚ) + 1) * 250 + 25) -
         max 0 ((j : ℚ) * 250 - 25)) * u)⟩ := by
  simp only [cellPart]
  norm_num

theorem cell1000_left (u : ℚ) (i j : ℕ) :
    (cellPart 1000 1000 4 4 (1 / 10) u i j).left = max 0 ((i : ℚ) * 250 - 25) := by
  rw [cell1000_fields]

theorem cell1000_top (u : ℚ) (i j : ℕ) :
    (cellPart 1000 1000 4 4 (1 / 10) u i j).top = max 0 ((j : ℚ) * 250 - 25) := by
  rw [cell1000_fields]

theorem cell1000_outW (u : ℚ) (i j : ℕ) :
    (cellPart 1000 1000 4 4 (1 / 10) u i j).outW =
      pyInt ((min 1000 (((i : ℚ) + 1) * 250 + 25) -
        max 0 ((i : ℚ) * 250 - 25)) * u) := by
  rw [cell1000_fields]

theorem cell1000_outH (u : ℚ) (i j : ℕ) :
    (cellPart 1000 1000 4 4 (1 / 10) u i j).outH =
      pyInt ((min 1000 (((j : ℚ) + 1) * 250 + 25) -
        max 0 ((j : ℚ) * 250 - 25)) * u) := by
  rw [cell1000_fields]

/-- In the 1000 x 1000, 4 x 4 geometry every crop is 275 or 300 units
wide and tall, so any upscale factor of at least 0.5 gives positive
resize targets. -/
theorem cell1000_dims_pos (u : ℚ) (hu : 1 / 2 ≤ u) (i j : ℕ)
    (hi : i < 4) (hj : j < 4) :
    1 ≤ (cellPart 1000 1000 4 4 (1 / 10) u i j).outW ∧
    1 ≤ (cellPart 1000 1000 4 4 (1 / 10) u i j).outH := by
  constructor
  · rw [cell1000_outW]
    apply pyInt_ge_one
    interval_cases i <;> norm_num <;> nlinarith
  · rw [cell1000_outH]
    apply pyInt_ge_one
    interval_cases j <;> norm_num <;> nlinarith

theorem grid1000_mem (u : ℚ) (p : Part)
    (hp : p ∈ gridCells 1000 1000 4 4 (1 / 10) u) :
    ∃ i j : ℕ, i < 4 ∧ j < 4 ∧ p = cellPart 1000 1000 4 4 (1 / 10) u i j := by
  simp only [gridCells, List.mem_flatMap, List.mem_map, List.mem_range] at hp
  obtain ⟨i, hi, j, hj, rfl⟩ := hp
  exact ⟨i, j, hi, hj, rfl⟩

theorem c1w_grid_ok :
    evalCellsAux c1w.enc (threshold c1w)
      (gridCells 1000 1000 4 4 (1 / 10) 1) [] =
    CellsOut.ok (gridCells 1000 1000 4 4 (1 / 10) 1) := by
  have h := evalCellsAux_ok_all c1w.enc (threshold c1w)
    (gridCells 1000 1000 4 4 (1 / 10) 1) []
    (fun p hp => by
      obtain ⟨i, j, hi, hj, rfl⟩ := grid1000_mem 1 p hp
      exact cell1000_dims_pos 1 (by norm_num) i j hi hj)
    (fun p _ => by norm_num [c1w, threshold])
  simpa using h

theorem split_image_c1w :
    split_image c1w = some (SplitResult.parts (gridCells 1000 1000 4 4 (1 / 10) 1)) := by
  rw [split_image, if_neg est_c1w, seedM_c1w, seedN_c1w, fuelBound_c1w,
    show c1w.base_upscale_factor = 1 from rfl,
    show (4 : ℕ) = 3 + 1 from rfl, splitLoop,
    show gridCells c1w.W c1w.H 4 4 c1w.overlap 1 =
      gridCells 1000 1000 4 4 (1 / 10) 1 from rfl,
    c1w_grid_ok]

theorem C1_witness :
    ((c1w.enc (cellPart 1000 1000 4 4 (1 / 10) 1 0 0) : ℚ) ≤
      (c1w.max_size : ℚ) * (7 / 10)) ∧
    (c1w.max_size = 10 * 1024 * 1024 →
      c1w.enc (cellPart 1000 1000 4 4 (1 / 10) 1 0 0) ≤ 10000000) :=
  C1_success_size_bound c1w (gridCells 1000 1000 4 4 (1 / 10) 1)
    (cellPart 1000 1000 4 4 (1 / 10) 1 0 0) split_image_c1w
    (List.mem_flatMap.mpr ⟨0, List.mem_range.mpr (by norm_num),
      List.mem_map.mpr ⟨0, List.mem_range.mpr (by norm_num), rfl⟩⟩)


/-! ### C2: the un-overlapped cells tile the image -/

/-- The index of a grid cell whose un-overlapped span contains a given
coordinate: `min (M - 1) (floor (x / grid_width))`. -/
def coverIdx (W : ℕ) (M : ℤ) (x : ℚ) : ℕ :=
  (min (M - 1) ⌊x * (M : ℚ) / (W : ℚ)⌋).toNat

theorem coverIdx_spec (W : ℕ) (M : ℤ) (x : ℚ)
    (hM : 1 ≤ M) (hx0 : 0 ≤ x) (hxW : x ≤ (W : ℚ)) :
    ((coverIdx W M x : ℤ) < M) ∧
    (coverIdx W M x : ℚ) * ((W : ℚ) / (M : ℚ)) ≤ x ∧
    x ≤ ((coverIdx W M x : ℚ) + 1) * ((W : ℚ) / (M : ℚ)) := by
  have hMQ : (0 : ℚ) < (M : ℚ) := by exact_mod_cast hM
  have hMne : (M : ℚ) ≠ 0 := ne_of_gt hMQ
  by_cases hW : W = 0
  · subst hW
    have hx : x = 0 := le_antisymm (by exact_mod_cast hxW) hx0
    subst hx
    have hk : ⌊(0 : ℚ) * (M : ℚ) / ((0 : ℕ) : ℚ)⌋ = 0 := by norm_num
    have hmin : min (M - 1) ⌊(0 : ℚ) * (M : ℚ) / ((0 : ℕ) : ℚ)⌋ = 0 := by
      rw [hk]
      exact min_eq_right (by omega)
    constructor
    · rw [coverIdx, hmin]
      simp
      omega
    · rw [coverIdx, hmin]
      norm_num
  · have hWQ : (0 : ℚ) < (W : ℚ) := by
      have : 0 < W := Nat.pos_of_ne_zero hW
      exact_mod_cast this
    have hWne : (W : ℚ) ≠ 0 := ne_of_gt hWQ
    set k : ℤ := ⌊x * (M : ℚ) / (W : ℚ)⌋ with hkdef
    have hk0 : 0 ≤ k := Int.floor_nonneg.mpr (by positivity)
    have hidx0 : 0 ≤ min (M - 1) k := le_min (by omega) hk0
    have hidxcast : ((coverIdx W M x : ℕ) : ℤ) = min (M - 1) k := by
      rw [coverIdx, ← hkdef]
      exact Int.toNat_of_nonneg hidx0
    have hlt : (coverIdx W M x : ℤ) < M := by
      rw [hidxcast]
      have : min (M - 1) k ≤ M - 1 := min_le_left _ _
      omega
    refine ⟨hlt, ?_, ?_⟩
    · -- lower bound: idx * (W/M) <= x
      have h1 : ((min (M - 1) k : ℤ) : ℚ) ≤ x * (M : ℚ) / (W : ℚ) := by
        calc ((min (M - 1) k : ℤ) : ℚ) ≤ ((k : ℤ) : ℚ) := by
              exact_mod_cast min_le_right (M - 1) k
          _ ≤ x * (M : ℚ) / (W : ℚ) := Int.floor_le _
      have h2 : ((min (M - 1) k : ℤ) : ℚ) * (W : ℚ) ≤ x * (M : ℚ) :=
        (le_div_iff hWQ).mp h1
      have hcast : ((coverIdx W M x : ℕ) : ℚ) = ((min (M - 1) k : ℤ) : ℚ) := by
        exact_mod_cast congrArg (fun z : ℤ => (z : ℚ)) hidxcast
      rw [hcast, mul_div_assoc']
      exact (div_le_iff hMQ).mpr (by linarith)
    · -- upper bound: x <= (idx + 1) * (W/M)
      have hcast : ((coverIdx W M x : ℕ) : ℚ) = ((min (M - 1) k : ℤ) : ℚ) := by
        exact_mod_cast congrArg (fun z : ℤ => (z : ℚ)) hidxcast
      rcases le_or_lt k (M - 1) with hkM | hkM
      · have hmin : min (M - 1) k = k := min_eq_right hkM
        have h1 : x * (M : ℚ) / (W : ℚ) < (k : ℚ) + 1 := Int.lt_floor_add_one _
        have h2 : x * (M : ℚ) < ((k : ℚ) + 1) * (W : ℚ) := by
          have := (div_lt_iff hWQ).mp h1
          linarith
        rw [hcast, hmin, mul_div_assoc']
        rw [le_div_iff hMQ]
        linarith
      · have hmin : min (M - 1) k = M - 1 := min_eq_left (by omega)
        have hMk : (M : ℚ) ≤ (k : ℚ) := by exact_mod_cast (by omega : M ≤ k)
        have h1 : (k : ℚ) ≤ x * (M : ℚ) / (W : ℚ) := Int.floor_le _
        have h2 : (M : ℚ) * (W : ℚ) ≤ x * (M : ℚ) := by
          have := (le_div_iff hWQ).mp (le_trans hMk h1)
          linarith
        have hxW2 : (W : ℚ) ≤ x := by
          have := mul_le_mul_of_nonneg_right (le_of_lt hMQ) (le_of_lt hWQ)
          nlinarith
        have hxeq : x = (W : ℚ) := le_antisymm hxW hxW2
        rw [hcast, hmin, hxeq]
        push_cast
        rw [sub_add_cancel, mul_div_assoc', mul_comm]
        rw [mul_div_assoc, div_self hMne, mul_one]


/-- Pure grid geometry: for any image dimensions and any grid `M x N`
(with `M, N >= 1` and a nonnegative overlap fraction), every point
`(x, y)` of `[0, W] x [0, H]` lies in the un-overlapped span
`[i*gw, (i+1)*gw] x [j*gh, (j+1)*gh]` of the cell `(i, j)` given by
`coverIdx`, these spans stay inside the image, and the corresponding
crop box of `cellPart` (the bounds of lines 62-65) contains the point. -/
theorem cover_point (W H : ℕ) (M N : ℤ) (f u : ℚ) (x y : ℚ)
    (hM : 1 ≤ M) (hN : 1 ≤ N) (hf : 0 ≤ f)
    (hx0 : 0 ≤ x) (hxW : x ≤ (W : ℚ)) (hy0 : 0 ≤ y) (hyH : y ≤ (H : ℚ)) :
    ((coverIdx W M x : ℤ) < M) ∧ ((coverIdx H N y : ℤ) < N) ∧
    ((0 : ℚ) ≤ (coverIdx W M x : ℚ) * ((W : ℚ) / (M : ℚ)) ∧
      ((coverIdx W M x : ℚ) + 1) * ((W : ℚ) / (M : ℚ)) ≤ (W : ℚ)) ∧
    ((0 : ℚ) ≤ (coverIdx H N y : ℚ) * ((H : ℚ) / (N : ℚ)) ∧
      ((coverIdx H N y : ℚ) + 1) * ((H : ℚ) / (N : ℚ)) ≤ (H : ℚ)) ∧
    ((coverIdx W M x : ℚ) * ((W : ℚ) / (M : ℚ)) ≤ x ∧
      x ≤ ((coverIdx W M x : ℚ) + 1) * ((W : ℚ) / (M : ℚ))) ∧
    ((coverIdx H N y : ℚ) * ((H : ℚ) / (N : ℚ)) ≤ y ∧
      y ≤ ((coverIdx H N y : ℚ) + 1) * ((H : ℚ) / (N : ℚ))) ∧
    (cellPart W H M N f u (coverIdx W M x) (coverIdx H N y)).left ≤ x ∧
    x ≤ (cellPart W H M N f u (coverIdx W M x) (coverIdx H N y)).right ∧
    (cellPart W H M N f u (coverIdx W M x) (coverIdx H N y)).top ≤ y ∧
    y ≤ (cellPart W H M N f u (coverIdx W M x) (coverIdx H N y)).bottom := by
  obtain ⟨hiM, hilo, hihi⟩ := coverIdx_spec W M x hM hx0 hxW
  obtain ⟨hjN, hjlo, hjhi⟩ := coverIdx_spec H N y hN hy0 hyH
  have hMQ : (0 : ℚ) < (M : ℚ) := by exact_mod_cast hM
  have hNQ : (0 : ℚ) < (N : ℚ) := by exact_mod_cast hN
  have hgw0 : (0 : ℚ) ≤ (W : ℚ) / (M : ℚ) := div_nonneg (by positivity) (le_of_lt hMQ)
  have hgh0 : (0 : ℚ) ≤ (H : ℚ) / (N : ℚ) := div_nonneg (by positivity) (le_of_lt hNQ)
  have how0 : (0 : ℚ) ≤ (W : ℚ) / (M : ℚ) * f := mul_nonneg hgw0 hf
  have hoh0 : (0 : ℚ) ≤ (H : ℚ) / (N : ℚ) * f := mul_nonneg hgh0 hf
  have hi1M : ((coverIdx W M x : ℚ) + 1) ≤ (M : ℚ) := by
    have h1 : (coverIdx W M x : ℤ) + 1 ≤ M := hiM
    exact_mod_cast h1
  have hj1N : ((coverIdx H N y : ℚ) + 1) ≤ (N : ℚ) := by
    have h1 : (coverIdx H N y : ℤ) + 1 ≤ N := hjN
    exact_mod_cast h1
  have hiW : ((coverIdx W M x : ℚ) + 1) * ((W : ℚ) / (M : ℚ)) ≤ (W : ℚ) := by
    calc ((coverIdx W M x : ℚ) + 1) * ((W : ℚ) / (M : ℚ))
        ≤ (M : ℚ) * ((W : ℚ) / (M : ℚ)) := mul_le_mul_of_nonneg_right hi1M hgw0
      _ = (W : ℚ) := by field_simp
  have hjH2 : ((coverIdx H N y : ℚ) + 1) * ((H : ℚ) / (N : ℚ)) ≤ (H : ℚ) := by
    calc ((coverIdx H N y : ℚ) + 1) * ((H : ℚ) / (N : ℚ))
        ≤ (N : ℚ) * ((H : ℚ) / (N : ℚ)) := mul_le_mul_of_nonneg_right hj1N hgh0
      _ = (H : ℚ) := by field_simp
  refine ⟨hiM, hjN,
    ⟨mul_nonneg (by positivity) hgw0, hiW⟩,
    ⟨mul_nonneg (by positivity) hgh0, hjH2⟩,
    ⟨hilo, hihi⟩, ⟨hjlo, hjhi⟩, ?_, ?_, ?_, ?_⟩
  · simp only [cellPart]
    exact max_le hx0 (le_trans (by linarith) hilo)
  · simp only [cellPart]
    exact le_min hxW (le_trans hihi (by linarith))
  · simp only [cellPart]
    exact max_le hy0 (le_trans (by linarith) hjlo)
  · simp only [cellPart]
    exact le_min hyH (le_trans hjhi (by linarith))

/-- C2 amended: on the success path the claim holds.  When a full grid
evaluation completes with no cell over the ceiling (`evalCellsAux`
returns `ok`), the loop returns exactly that `M x N` grid of crops,
and every point `(x, y)` of `[0, W] x [0, H]` lies in the
un-overlapped span of one of the returned crops (the cell picked by
`coverIdx`), whose clamped box contains the point: an accepted
partition tiles the image with no gaps.  A give-up return may instead
be partial (even empty) and need not cover, as the counterexample
shows. -/
theorem C2_success_coverage (c : Cfg) (fuel : ℕ) (M N : ℤ) (u : ℚ)
    (l : List Part) (x y : ℚ)
    (hM : 1 ≤ M) (hN : 1 ≤ N) (hf : 0 ≤ c.overlap)
    (hok : evalCellsAux c.enc (threshold c)
      (gridCells c.W c.H M N c.overlap u) [] = CellsOut.ok l)
    (hx0 : 0 ≤ x) (hxW : x ≤ (c.W : ℚ)) (hy0 : 0 ≤ y) (hyH : y ≤ (c.H : ℚ)) :
    splitLoop c (fuel + 1) M N u = some (SplitResult.parts l) ∧
    cellPart c.W c.H M N c.overlap u (coverIdx c.W M x) (coverIdx c.H N y) ∈ l ∧
    ((coverIdx c.W M x : ℚ) * ((c.W : ℚ) / (M : ℚ)) ≤ x ∧
      x ≤ ((coverIdx c.W M x : ℚ) + 1) * ((c.W : ℚ) / (M : ℚ))) ∧
    ((coverIdx c.H N y : ℚ) * ((c.H : ℚ) / (N : ℚ)) ≤ y ∧
      y ≤ ((coverIdx c.H N y : ℚ) + 1) * ((c.H : ℚ) / (N : ℚ))) ∧
    (cellPart c.W c.H M N c.overlap u
      (coverIdx c.W M x) (coverIdx c.H N y)).left ≤ x ∧
    x ≤ (cellPart c.W c.H M N c.overlap u
      (coverIdx c.W M x) (coverIdx c.H N y)).right ∧
    (cellPart c.W c.H M N c.overlap u
      (coverIdx c.W M x) (coverIdx c.H N y)).top ≤ y ∧
    y ≤ (cellPart c.W c.H M N c.overlap u
      (coverIdx c.W M x) (coverIdx c.H N y)).bottom := by
  obtain ⟨hiM, hjN, hconW, hconH, hspanx, hspany, hcl, hcr, hct, hcb⟩ :=
    cover_point c.W c.H M N c.overlap u x y hM hN hf hx0 hxW hy0 hyH
  have hleq : l = gridCells c.W c.H M N c.overlap u := by
    have h := evalCellsAux_ok_eq c.enc (threshold c) _ [] l hok
    simpa using h
  refine ⟨?_, ?_, hspanx, hspany, hcl, hcr, hct, hcb⟩
  · rw [splitLoop, hok]
  · rw [hleq]
    apply List.mem_flatMap.mpr
    refine ⟨coverIdx c.W M x, List.mem_range.mpr (by omega), ?_⟩
    exact List.mem_map.mpr ⟨coverIdx c.H N y, List.mem_range.mpr (by omega), rfl⟩

theorem C2_witness :
    splitLoop c1w (0 + 1) 4 4 1 =
      some (SplitResult.parts (gridCells 1000 1000 4 4 (1 / 10) 1)) ∧
    cellPart 1000 1000 4 4 (1 / 10) 1 (coverIdx 1000 4 617) (coverIdx 1000 4 2) ∈
      gridCells 1000 1000 4 4 (1 / 10) 1 ∧
    ((coverIdx 1000 4 617 : ℚ) * (((1000 : ℕ) : ℚ) / ((4 : ℤ) : ℚ)) ≤ 617 ∧
      (617 : ℚ) ≤ ((coverIdx 1000 4 617 : ℚ) + 1) *
        (((1000 : ℕ) : ℚ) / ((4 : ℤ) : ℚ))) ∧
    ((coverIdx 1000 4 2 : ℚ) * (((1000 : ℕ) : ℚ) / ((4 : ℤ) : ℚ)) ≤ 2 ∧
      (2 : ℚ) ≤ ((coverIdx 1000 4 2 : ℚ) + 1) *
        (((1000 : ℕ) : ℚ) / ((4 : ℤ) : ℚ))) ∧
    (cellPart 1000 1000 4 4 (1 / 10) 1
      (coverIdx 1000 4 617) (coverIdx 1000 4 2)).left ≤ 617 ∧
    (617 : ℚ) ≤ (cellPart 1000 1000 4 4 (1 / 10) 1
      (coverIdx 1000 4 617) (coverIdx 1000 4 2)).right ∧
    (cellPart 1000 1000 4 4 (1 / 10) 1
      (coverIdx 1000 4 617) (coverIdx 1000 4 2)).top ≤ 2 ∧
    (2 : ℚ) ≤ (cellPart 1000 1000 4 4 (1 / 10) 1
      (coverIdx 1000 4 617) (coverIdx 1000 4 2)).bottom :=
  C2_success_coverage c1w 0 4 4 1 (gridCells 1000 1000 4 4 (1 / 10) 1) 617 2
    (by norm_num) (by norm_num) (by norm_num [c1w]) c1w_grid_ok
    (by norm_num) (by norm_num [c1w]) (by norm_num) (by norm_num [c1w])

/-! ### Termination of the refinement loop -/

theorem threshold_pos (c : Cfg) (hmax : 0 < c.max_size) : 0 < threshold c := by
  rw [threshold]
  have : (0 : ℚ) < (c.max_size : ℚ) := by exact_mod_cast hmax
  positivity

theorem levelCount_pos (u : ℚ) (hu : 1 < u) : 1 ≤ levelCount u := by
  rw [levelCount]
  have h1 : (0 : ℚ) < 2 * (u - 1) := by linarith
  have h2 : 1 ≤ ⌈2 * (u - 1)⌉ := Int.ceil_pos.mpr h1
  omega

theorem levelCount_step (u : ℚ) (hu : 1 < u) :
    levelCount (u - 1 / 2) = levelCount u - 1 := by
  rw [levelCount, levelCount]
  have h1 : 2 * (u - 1 / 2 - 1) = 2 * (u - 1) - 1 := by ring
  rw [h1, Int.ceil_sub_one]
  have h2 : 1 ≤ ⌈2 * (u - 1)⌉ := Int.ceil_pos.mpr (by linarith)
  omega

theorem seedM_nonneg (c : Cfg) (hf : 0 ≤ c.overlap) : 0 ≤ seedM c := by
  rw [seedM]
  have h1 : (0 : ℚ) ≤ (c.W : ℚ) * (1 + 2 * c.overlap) / 8000 := by positivity
  have h2 : (0 : ℤ) ≤ ⌈(c.W : ℚ) * (1 + 2 * c.overlap) / 8000⌉ :=
    Int.ceil_nonneg h1
  exact le_max_of_le_right h2

theorem M_le_budget (c : Cfg) (M : ℤ) (h : 500 ≤ (c.W : ℚ) / (M : ℚ)) :
    0 < M ∧ M < (colBudget c : ℤ) := by
  have hM : 0 < M := by
    by_contra hM
    push_neg at hM
    rcases lt_or_eq_of_le hM with hlt | heq
    · have hMQ : ((M : ℚ)) < 0 := by exact_mod_cast hlt
      have hWQ : (0 : ℚ) ≤ (c.W : ℚ) := by positivity
      have : (c.W : ℚ) / (M : ℚ) ≤ 0 := div_nonpos_iff.mpr (Or.inl ⟨hWQ, le_of_lt hMQ⟩)
      linarith
    · rw [heq] at h
      norm_num at h
  have hMQ : (0 : ℚ) < (M : ℚ) := by exact_mod_cast hM
  have h2 : (M : ℚ) * 500 ≤ (c.W : ℚ) := by
    have := (le_div_iff₀ hMQ).mp h
    linarith
  have h3 : M * 500 ≤ (c.W : ℤ) := by exact_mod_cast h2
  refine ⟨hM, ?_⟩
  rw [colBudget]
  push_cast
  omega

theorem nextCount_ge (c : Cfg) (M : ℤ) (s : ℕ)
    (hr : ∀ f, 1 < f → 1 ≤ c.rsqrt f) (hM : 0 < M)
    (hthr : 0 < threshold c) (hs : threshold c < (s : ℚ)) :
    M + 1 ≤ nextCount c M s := by
  have hf1 : 1 < (s : ℚ) / threshold c := (one_lt_div hthr).mpr hs
  have harf : 1 ≤ c.rsqrt ((s : ℚ) / threshold c) := hr _ hf1
  have hMQ : (0 : ℚ) ≤ (M : ℚ) := by exact_mod_cast le_of_lt hM
  have hle : (M : ℚ) ≤ (M : ℚ) * c.rsqrt ((s : ℚ) / threshold c) :=
    le_mul_of_one_le_right hMQ harf
  have hnn : (0 : ℚ) ≤ (M : ℚ) * c.rsqrt ((s : ℚ) / threshold c) :=
    le_trans hMQ hle
  rw [nextCount, pyInt, if_pos hnn]
  have hfl : M ≤ ⌊(M : ℚ) * c.rsqrt ((s : ℚ) / threshold c)⌋ := by
    have := Int.floor_le_floor hle
    rwa [Int.floor_intCast] at this
  omega

theorem splitLoop_ne_none (c : Cfg)
    (hr : ∀ f, 1 < f → 1 ≤ c.rsqrt f) (hmax : 0 < c.max_size)
    (hf : 0 ≤ c.overlap) :
    ∀ fuel M N u, loopMeasure c M u < fuel → splitLoop c fuel M N u ≠ none
  | 0, M, N, u, hm => by omega
  | fuel + 1, M, N, u, hm => by
    rw [splitLoop]
    rcases hev : evalCellsAux c.enc (threshold c)
        (gridCells c.W c.H M N c.overlap u) [] with _ | ⟨parts, s⟩ | parts
    · simp
    · simp only
      have hs := (evalCellsAux_overflow_sizes c.enc (threshold c) _ _ _ _
        (by intro q hq; simp at hq) hev).2
      by_cases hsmall : (c.W : ℚ) / (M : ℚ) < 500 ∨ (c.H : ℚ) / (N : ℚ) < 500
      · rw [if_pos hsmall]
        by_cases hu : 1 < u
        · rw [if_pos hu]
          apply splitLoop_ne_none c hr hmax hf fuel
          obtain ⟨A, hA⟩ : ∃ A, levelCount u = A + 1 := by
            have := levelCount_pos u hu
            exact ⟨levelCount u - 1, by omega⟩
          have hstep : levelCount (u - 1 / 2) = A := by
            rw [levelCount_step u hu, hA]
            omega
          have hseed : 0 ≤ seedM c := seedM_nonneg c hf
          have hgoal : loopMeasure c (seedM c) (u - 1 / 2) =
              A * (colBudget c + 1) + ((colBudget c : ℤ) - seedM c).toNat := by
            rw [loopMeasure, hstep]
          have hold : loopMeasure c M u =
              A * (colBudget c + 1) + (colBudget c + 1) +
                ((colBudget c : ℤ) - M).toNat := by
            rw [loopMeasure, hA]
            ring
          rw [hold] at hm
          rw [hgoal]
          set P := A * (colBudget c + 1) with hP
          omega
        · rw [if_neg hu]
          simp
      · rw [if_neg hsmall]
        apply splitLoop_ne_none c hr hmax hf fuel
        push_neg at hsmall
        obtain ⟨hM, hMK⟩ := M_le_budget c M hsmall.1
        have hnext := nextCount_ge c M s hr hM (threshold_pos c hmax) hs
        have hgoal : loopMeasure c (nextCount c M s) u =
            levelCount u * (colBudget c + 1) +
              ((colBudget c : ℤ) - nextCount c M s).toNat := by
          rw [loopMeasure]
        have hold : loopMeasure c M u =
            levelCount u * (colBudget c + 1) + ((colBudget c : ℤ) - M).toNat := by
          rw [loopMeasure]
        rw [hold] at hm
        rw [hgoal]
        set P := levelCount u * (colBudget c + 1) with hP
        omega
    · simp

theorem loopMeasure_seed_lt (c : Cfg) (hf : 0 ≤ c.overlap) :
    loopMeasure c (seedM c) c.base_upscale_factor < fuelBound c := by
  rw [loopMeasure, fuelBound]
  have hseed : 0 ≤ seedM c := seedM_nonneg c hf
  have hb : ((colBudget c : ℤ) - seedM c).toNat ≤ colBudget c := by omega
  omega

theorem split_image_ne_none (c : Cfg)
    (hr : ∀ f, 1 < f → 1 ≤ c.rsqrt f) (hmax : 0 < c.max_size)
    (hf : 0 ≤ c.overlap) :
    split_image c ≠ none := by
  rw [split_image]
  by_cases hz : estimate_size_per_pixel c.enc c.W c.H 5000 = 0
  · simp [hz]
  · rw [if_neg hz]
    exact splitLoop_ne_none c hr hmax hf (fuelBound c) (seedM c) (seedN c)
      c.base_upscale_factor (loopMeasure_seed_lt c hf)


/-! ### C3: monotone refinement and termination -/

theorem grid_count_pos (W : ℕ) (M : ℤ) (h : 500 ≤ (W : ℚ) / (M : ℚ)) : 0 < M := by
  by_contra hM
  push_neg at hM
  rcases lt_or_eq_of_le hM with hlt | heq
  · have hMQ : ((M : ℚ)) < 0 := by exact_mod_cast hlt
    have hWQ : (0 : ℚ) ≤ (W : ℚ) := by positivity
    have : (W : ℚ) / (M : ℚ) ≤ 0 := div_nonpos_iff.mpr (Or.inl ⟨hWQ, le_of_lt hMQ⟩)
    linarith
  · rw [heq] at h
    norm_num at h

/-- C3: whenever an attempt is rejected while both current cell
dimensions are still at least 500 (the continue branch of the loop),
the updated grid counts strictly increase the product `M * N`; the
number of upscale levels obeys the bound
`ceil((base_upscale_factor - 1) / 0.5)` reductions (the level budget of
`fuelBound`); and with a square root satisfying `sqrt f >= 1` for
`f > 1`, a positive size ceiling and a nonnegative overlap fraction the
`while True` loop of `split_image` always returns. -/
theorem C3_monotone_termination (c : Cfg) (M N : ℤ) (s : ℕ)
    (hr : ∀ f, 1 < f → 1 ≤ c.rsqrt f) (hmax : 0 < c.max_size)
    (hf : 0 ≤ c.overlap)
    (hgw : 500 ≤ (c.W : ℚ) / (M : ℚ)) (hgh : 500 ≤ (c.H : ℚ) / (N : ℚ))
    (hs : threshold c < (s : ℚ)) :
    M * N < nextCount c M s * nextCount c N s ∧
    levelCount c.base_upscale_factor =
      (⌈(c.base_upscale_factor - 1) / (1 / 2)⌉).toNat ∧
    split_image c ≠ none := by
  have hM : 0 < M := grid_count_pos c.W M hgw
  have hN : 0 < N := grid_count_pos c.H N hgh
  have hM2 := nextCount_ge c M s hr hM (threshold_pos c hmax) hs
  have hN2 := nextCount_ge c N s hr hN (threshold_pos c hmax) hs
  refine ⟨?_, ?_, split_image_ne_none c hr hmax hf⟩
  · have h1 : (M + 1) * (N + 1) ≤ nextCount c M s * nextCount c N s :=
      mul_le_mul hM2 hN2 (by omega) (by omega)
    nlinarith
  · rw [levelCount, show (c.base_upscale_factor - 1) / (1 / 2) =
      2 * (c.base_upscale_factor - 1) by ring]

/-- A configuration with large cells (grid width 1000) on which the
first attempt succeeds. -/
def c3w : Cfg where
  enc := fun _ => 100
  rsqrt := id
  W := 4000
  H := 4000
  overlap := 1 / 10
  max_size := 10485760
  base_upscale_factor := 1
  min_grid_size := 4

theorem C3_witness :
    (4 : ℤ) * 4 < nextCount c3w 4 10000000 * nextCount c3w 4 10000000 ∧
    levelCount c3w.base_upscale_factor =
      (⌈(c3w.base_upscale_factor - 1) / (1 / 2)⌉).toNat ∧
    split_image c3w ≠ none :=
  C3_monotone_termination c3w 4 4 10000000 (fun f hf => le_of_lt hf)
    (by norm_num [c3w]) (by norm_num [c3w]) (by norm_num [c3w])
    (by norm_num [c3w]) (by norm_num [threshold, c3w])

/-! ### C4: the give-up branch can return an empty list -/

theorem seedM_1000 (c : Cfg) (hW : c.W = 1000) (hf : c.overlap = 1 / 10)
    (hm : c.min_grid_size = 4) : seedM c = 4 := by
  rw [seedM, hW, hf, hm,
    show ((1000 : ℕ) : ℚ) * (1 + 2 * (1 / 10)) / 8000 = 3 / 20 by norm_num]
  rw [ceil_eq_of (3 / 20) 1 (by norm_num) (by norm_num)]
  norm_num

theorem seedN_1000 (c : Cfg) (hH : c.H = 1000) (hf : c.overlap = 1 / 10)
    (hm : c.min_grid_size = 4) : seedN c = 4 := by
  rw [seedN, hH, hf, hm,
    show ((1000 : ℕ) : ℚ) * (1 + 2 * (1 / 10)) / 8000 = 3 / 20 by norm_num]
  rw [ceil_eq_of (3 / 20) 1 (by norm_num) (by norm_num)]
  norm_num

theorem fuelBound_1000_base1 (c : Cfg) (hW : c.W = 1000)
    (hb : c.base_upscale_factor = 1) : fuelBound c = 4 := by
  rw [fuelBound, levelCount, hb, show (2 * ((1 : ℚ) - 1)) = 0 by norm_num]
  norm_num [colBudget, hW]

theorem gridCells_ne_nil (W H : ℕ) (M N : ℤ) (f u : ℚ)
    (hM : 0 < M.toNat) (hN : 0 < N.toNat) : gridCells W H M N f u ≠ [] := by
  intro h
  have := congrArg List.length h
  rw [gridCells_length] at this
  simp at this
  omega

/-- A 1 x 1 image whose sample encodes to 100 bytes (any real PNG of a
1 x 1 image is a few dozen bytes, never 0): the bytes-per-pixel
estimate is 100, not 0, so the degenerate fallback is not taken and
the loop starts on a 4 x 4 grid of quarter-pixel cells. -/
def cTiny : Cfg where
  enc := fun _ => 100
  rsqrt := id
  W := 1
  H := 1
  overlap := 1 / 10
  max_size := 10485760
  base_upscale_factor := 1
  min_grid_size := 4

theorem est_cTiny : estimate_size_per_pixel cTiny.enc cTiny.W cTiny.H 5000 ≠ 0 := by
  rw [estimate_size_per_pixel]
  norm_num [cTiny, samplePart]

theorem seedM_cTiny : seedM cTiny = 4 := by
  rw [seedM, show ((cTiny.W : ℚ) * (1 + 2 * cTiny.overlap) / 8000) = 3 / 20000 by
    norm_num [cTiny]]
  rw [ceil_eq_of (3 / 20000) 1 (by norm_num) (by norm_num)]
  norm_num [cTiny]

theorem seedN_cTiny : seedN cTiny = 4 := by
  rw [seedN, show ((cTiny.H : ℚ) * (1 + 2 * cTiny.overlap) / 8000) = 3 / 20000 by
    norm_num [cTiny]]
  rw [ceil_eq_of (3 / 20000) 1 (by norm_num) (by norm_num)]
  norm_num [cTiny]

theorem fuelBound_cTiny : fuelBound cTiny = 2 := by
  rw [fuelBound, levelCount, show (2 * (cTiny.base_upscale_factor - 1)) = 0 by
    norm_num [cTiny]]
  norm_num [colBudget, cTiny]

/-- The first cell of the 1 x 1 grid has crop box `[0, 0.275]^2` and
resize target `int(0.275 * 1.0) = 0`. -/
theorem cTiny_first_outW : (cellPart 1 1 4 4 (1 / 10) 1 0 0).outW = 0 := by
  simp only [cellPart]
  norm_num
  rw [pyInt, if_pos (by norm_num)]
  rw [floor_eq_of (11 / 40) 0 (by norm_num) (by norm_num)]

theorem cTiny_head_raised :
    evalCellsAux cTiny.enc (threshold cTiny)
      (gridCells 1 1 4 4 (1 / 10) 1) [] = CellsOut.raised := by
  have hhead : gridCells 1 1 4 4 (1 / 10) 1 =
      cellPart 1 1 4 4 (1 / 10) 1 0 0 ::
        (gridCells 1 1 4 4 (1 / 10) 1).tail := rfl
  conv_lhs => rw [hhead]
  exact evalCellsAux_head_raised cTiny.enc (threshold cTiny) _ _ []
    (Or.inl (le_of_eq cTiny_first_outW))

/-- On the 1 x 1 image the estimate is positive, the loop starts, and
the very first cell's `resize((0, 0), LANCZOS)` raises `ValueError`,
which propagates out of `split_image`. -/
theorem split_image_cTiny : split_image cTiny = some SplitResult.valueError := by
  rw [split_image, if_neg est_cTiny, seedM_cTiny, seedN_cTiny, fuelBound_cTiny,
    show cTiny.base_upscale_factor = 1 from rfl,
    show (2 : ℕ) = 1 + 1 from rfl, splitLoop,
    show gridCells cTiny.W cTiny.H 4 4 cTiny.overlap 1 =
      gridCells 1 1 4 4 (1 / 10) 1 from rfl,
    cTiny_head_raised]

/-- Every crop of the first attempt of `cEmpty` encodes to 800000
bytes against a ceiling of `1000 * 0.7 = 700`: the very first cell
overflows (so no crop is kept), the cell width 250 is already below
500, and the upscale factor is at its floor, so the loop gives up
returning the empty list. -/
def cEmpty : Cfg where
  enc := fun _ => 800000
  rsqrt := id
  W := 1000
  H := 1000
  overlap := 1 / 10
  max_size := 1000
  base_upscale_factor := 1
  min_grid_size := 4

theorem est_cEmpty : estimate_size_per_pixel cEmpty.enc cEmpty.W cEmpty.H 5000 ≠ 0 := by
  rw [estimate_size_per_pixel]
  norm_num [cEmpty, samplePart]

theorem cEmpty_head_overflow :
    evalCellsAux cEmpty.enc (threshold cEmpty)
      (gridCells 1000 1000 4 4 (1 / 10) 1) [] = CellsOut.overflow [] 800000 := by
  have hhead : gridCells 1000 1000 4 4 (1 / 10) 1 =
      cellPart 1000 1000 4 4 (1 / 10) 1 0 0 ::
        (gridCells 1000 1000 4 4 (1 / 10) 1).tail := rfl
  conv_lhs => rw [hhead]
  rw [evalCellsAux_head_overflow cEmpty.enc (threshold cEmpty) _ _ []
    (cell1000_dims_pos 1 (by norm_num) 0 0 (by norm_num) (by norm_num))
    (by norm_num [threshold, cEmpty])]
  rfl

theorem split_image_cEmpty : split_image cEmpty = some (SplitResult.parts []) := by
  rw [split_image, if_neg est_cEmpty, seedM_1000 cEmpty rfl rfl rfl,
    seedN_1000 cEmpty rfl rfl rfl, fuelBound_1000_base1 cEmpty rfl rfl,
    show cEmpty.base_upscale_factor = 1 from rfl,
    show (4 : ℕ) = 3 + 1 from rfl, splitLoop,
    show gridCells cEmpty.W cEmpty.H 4 4 cEmpty.overlap 1 =
      gridCells 1000 1000 4 4 (1 / 10) 1 from rfl,
    cEmpty_head_overflow]
  simp only
  have hcond : (cEmpty.W : ℚ) / ((4 : ℤ) : ℚ) < 500 ∨
      (cEmpty.H : ℚ) / ((4 : ℤ) : ℚ) < 500 := Or.inl (by norm_num [cEmpty])
  rw [if_pos hcond, if_neg (by norm_num : ¬(1 : ℚ) < 1)]

/-- C2 counterexample: the claim ranges over every image and
parameters, but the give-up branch can return a sequence of parts — 
here the empty one on a 1000 x 1000 image — whose un-overlapped
regions cover no pixel at all, so the returned parts do not tile
`[0, W] x [0, H]`. -/
theorem C2_counterexample :
    split_image cEmpty = some (SplitResult.parts []) ∧
    partsOf (SplitResult.parts []) = [] ∧
    0 < cEmpty.W * cEmpty.H :=
  ⟨split_image_cEmpty, rfl, by norm_num [cEmpty]⟩

/-- C4 counterexample: the claim fails on both counts.  On `cEmpty`
the give-up branch returns the EMPTY sequence of parts (the first cell
of the final attempt overflowed, so nothing was kept), and on the
1 x 1 image `cTiny` the call does not return a sequence at all: it
propagates the `ValueError` from `resize((0, 0))` — a hard failure
mode. -/
theorem C4_counterexample :
    split_image cEmpty = some (SplitResult.parts []) ∧
    numParts (SplitResult.parts []) = 0 ∧
    split_image cTiny = some SplitResult.valueError :=
  ⟨split_image_cEmpty, rfl, split_image_cTiny⟩

/-- C4 amended: the loop itself never fails to terminate — under a
square root with `sqrt f >= 1` for `f > 1`, a positive size ceiling
and a nonnegative overlap fraction, `split_image` always reaches one
of its three outcomes (the single-part `[img]` fallback, a possibly
empty list of crops, or the propagated resize `ValueError`); but the
returned sequence can be empty in the give-up branch and the call can
raise, so neither non-emptiness nor absence of a hard failure mode
holds. -/
theorem C4_amended_terminates (c : Cfg) (hr : ∀ f, 1 < f → 1 ≤ c.rsqrt f)
    (hmax : 0 < c.max_size) (hf : 0 ≤ c.overlap) :
    split_image c ≠ none ∧ numParts SplitResult.whole = 1 :=
  ⟨split_image_ne_none c hr hmax hf, rfl⟩

theorem C4_witness :
    split_image c1w ≠ none ∧ numParts SplitResult.whole = 1 :=
  C4_amended_terminates c1w (fun f hf => le_of_lt hf) (by norm_num [c1w])
    (by norm_num [c1w])


/-! ### C5: the degenerate estimate and the single-part fallback -/

/-- C5: `estimate_size_per_pixel` returns
`encoded_bytes / sample_pixel_count` when the clamped sample region
`min(test_size, W) * min(test_size, H)` has positive area and exactly 0
otherwise; and `split_image` returns the whole image as the single
unsplit part if and only if the estimate is 0. -/
theorem C5_estimator_and_fallback (c : Cfg) :
    estimate_size_per_pixel c.enc c.W c.H 5000 =
      (if 0 < min 5000 c.W * min 5000 c.H
        then (c.enc (samplePart c.W c.H 5000) : ℚ) /
          ((min 5000 c.W * min 5000 c.H : ℕ) : ℚ)
        else 0) ∧
    (split_image c = some SplitResult.whole ↔
      estimate_size_per_pixel c.enc c.W c.H 5000 = 0) :=
  ⟨rfl, split_image_whole_iff c⟩

theorem C5_witness :
    estimate_size_per_pixel c1w.enc c1w.W c1w.H 5000 =
      (if 0 < min 5000 c1w.W * min 5000 c1w.H
        then (c1w.enc (samplePart c1w.W c1w.H 5000) : ℚ) /
          ((min 5000 c1w.W * min 5000 c1w.H : ℕ) : ℚ)
        else 0) ∧
    (split_image c1w = some SplitResult.whole ↔
      estimate_size_per_pixel c1w.enc c1w.W c1w.H 5000 = 0) :=
  C5_estimator_and_fallback c1w

/-! ### C6: a 1 x 1 image is split, not returned whole -/

/-- C6 counterexample: the 1 x 1 image `cTiny` has a positive sample
encoding, so `split_image` does not return it unsplit: the estimate is
100, the loop starts on the 4 x 4 grid, and the first cell's
`resize((0, 0))` raises `ValueError` out of the call — no single
unsplit part is ever produced. -/
theorem C6_counterexample :
    split_image cTiny ≠ some SplitResult.whole ∧
    split_image cTiny = some SplitResult.valueError ∧
    estimate_size_per_pixel cTiny.enc cTiny.W cTiny.H 5000 ≠ 0 := by
  refine ⟨?_, split_image_cTiny, est_cTiny⟩
  rw [split_image_cTiny]
  simp

/-- C6 amended: a 1 x 1 image yields the single-part unsplit result
only when its sample encoding is 0 bytes; whenever the sample encoding
is positive (as for any real PNG) the algorithm does not return the
image unsplit — it proceeds to grid splitting, and with the default
parameters the first degenerate cell's resize raises `ValueError`. -/
theorem C6_amended (c : Cfg) (hW : c.W = 1) (hH : c.H = 1)
    (hz : c.enc (samplePart 1 1 5000) ≠ 0) :
    split_image c ≠ some SplitResult.whole := by
  rw [Ne, split_image_whole_iff c, hW, hH, estimate_size_per_pixel]
  have hmin : min 5000 1 = 1 := by norm_num
  rw [hmin]
  norm_num
  exact_mod_cast hz

theorem C6_witness : split_image cTiny ≠ some SplitResult.whole :=
  C6_amended cTiny rfl rfl (by norm_num [cTiny])


/-! ### C7: early exit and the sqrt-based refinement -/

/-- C7: within a grid evaluation, as soon as one cell (with a
well-formed resize target, as any cell that reaches the size check
has) overflows the ceiling, the evaluation stops with exactly the
crops accepted so far (cells after the overflowing one are never
encoded: the result depends only on the prefix), and the loop then
recurses with
`M = int(M * sqrt(part_size / (max_size * safety_factor))) + 1` and `N`
updated analogously. -/
theorem C7_early_exit (c : Cfg) (fuel : ℕ) (M N : ℤ) (u : ℚ)
    (l₁ l₂ : List Part) (p : Part)
    (hcells : gridCells c.W c.H M N c.overlap u = l₁ ++ p :: l₂)
    (hd₁ : ∀ q ∈ l₁, 1 ≤ q.outW ∧ 1 ≤ q.outH)
    (h₁ : ∀ q ∈ l₁, (c.enc q : ℚ) ≤ threshold c)
    (hdp : 1 ≤ p.outW ∧ 1 ≤ p.outH)
    (hp : threshold c < (c.enc p : ℚ))
    (hbig : ¬ ((c.W : ℚ) / (M : ℚ) < 500 ∨ (c.H : ℚ) / (N : ℚ) < 500)) :
    evalCellsAux c.enc (threshold c) (gridCells c.W c.H M N c.overlap u) [] =
      CellsOut.overflow l₁ (c.enc p) ∧
    splitLoop c (fuel + 1) M N u =
      splitLoop c fuel
        (pyInt ((M : ℚ) * c.rsqrt ((c.enc p : ℚ) / threshold c)) + 1)
        (pyInt ((N : ℚ) * c.rsqrt ((c.enc p : ℚ) / threshold c)) + 1) u := by
  have hev : evalCellsAux c.enc (threshold c)
      (gridCells c.W c.H M N c.overlap u) [] = CellsOut.overflow l₁ (c.enc p) := by
    rw [hcells, evalCellsAux_skip c.enc (threshold c) l₁ (p :: l₂) [] hd₁ h₁,
      evalCellsAux_head_overflow c.enc (threshold c) p l₂ (l₁.reverse ++ []) hdp hp]
    simp
  refine ⟨hev, ?_⟩
  rw [splitLoop, hev]
  simp only
  rw [if_neg hbig]
  rfl

/-- A configuration with grid width 1000 (at least 500) on which every
crop overflows: the first cell triggers the early exit and the loop
takes the shrink branch. -/
def c7w : Cfg where
  enc := fun _ => 10000000
  rsqrt := id
  W := 4000
  H := 4000
  overlap := 1 / 10
  max_size := 10485760
  base_upscale_factor := 1
  min_grid_size := 4

theorem c7w_head_dims :
    1 ≤ (cellPart 4000 4000 4 4 (1 / 10) 1 0 0).outW ∧
    1 ≤ (cellPart 4000 4000 4 4 (1 / 10) 1 0 0).outH := by
  constructor <;> (simp only [cellPart]; apply pyInt_ge_one; norm_num)

theorem C7_witness :
    evalCellsAux c7w.enc (threshold c7w)
        (gridCells c7w.W c7w.H 4 4 c7w.overlap 1) [] =
      CellsOut.overflow [] (c7w.enc (cellPart 4000 4000 4 4 (1 / 10) 1 0 0)) ∧
    splitLoop c7w (0 + 1) 4 4 1 =
      splitLoop c7w 0
        (pyInt (((4 : ℤ) : ℚ) *
          c7w.rsqrt ((c7w.enc (cellPart 4000 4000 4 4 (1 / 10) 1 0 0) : ℚ) /
            threshold c7w)) + 1)
        (pyInt (((4 : ℤ) : ℚ) *
          c7w.rsqrt ((c7w.enc (cellPart 4000 4000 4 4 (1 / 10) 1 0 0) : ℚ) /
            threshold c7w)) + 1) 1 :=
  C7_early_exit c7w 0 4 4 1 []
    ((gridCells 4000 4000 4 4 (1 / 10) 1).tail)
    (cellPart 4000 4000 4 4 (1 / 10) 1 0 0)
    rfl (by simp) (by simp) c7w_head_dims
    (by norm_num [c7w, threshold]) (by norm_num [c7w])

/-! ### C8: the below-minimum branch resets or gives up -/

/-- C8: when a rejected attempt's current cell dimensions (computed
from the pre-update `M, N`) are below 500, the loop either (if
`upscale > 1.0`) lowers the upscale factor by exactly 0.5 and reseeds
`M, N` to `max(min_grid_size, ceil(dim * (1 + 2*overlap) / 8000))`, or
(otherwise, the factor being at or below its floor 1.0) returns the
partial list built so far as-is. -/
theorem C8_reset_or_giveup (c : Cfg) (fuel : ℕ) (M N : ℤ) (u : ℚ)
    (parts : List Part) (s : ℕ)
    (hev : evalCellsAux c.enc (threshold c)
        (gridCells c.W c.H M N c.overlap u) [] = CellsOut.overflow parts s)
    (hsmall : (c.W : ℚ) / (M : ℚ) < 500 ∨ (c.H : ℚ) / (N : ℚ) < 500) :
    splitLoop c (fuel + 1) M N u =
      (if 1 < u then splitLoop c fuel (seedM c) (seedN c) (u - 1 / 2)
        else some (SplitResult.parts parts)) ∧
    seedM c = max c.min_grid_size ⌈(c.W : ℚ) * (1 + 2 * c.overlap) / 8000⌉ ∧
    seedN c = max c.min_grid_size ⌈(c.H : ℚ) * (1 + 2 * c.overlap) / 8000⌉ := by
  refine ⟨?_, rfl, rfl⟩
  rw [splitLoop, hev]
  simp only
  rw [if_pos hsmall]

theorem C8_witness :
    splitLoop cEmpty (0 + 1) 4 4 1 =
      (if (1 : ℚ) < 1 then
        splitLoop cEmpty 0 (seedM cEmpty) (seedN cEmpty) (1 - 1 / 2)
      else some (SplitResult.parts [])) ∧
    seedM cEmpty =
      max cEmpty.min_grid_size ⌈(cEmpty.W : ℚ) * (1 + 2 * cEmpty.overlap) / 8000⌉ ∧
    seedN cEmpty =
      max cEmpty.min_grid_size ⌈(cEmpty.H : ℚ) * (1 + 2 * cEmpty.overlap) / 8000⌉ :=
  C8_reset_or_giveup cEmpty 0 4 4 1 [] 800000 cEmpty_head_overflow
    (Or.inl (by norm_num [cEmpty]))


/-! ### C9: clamping always holds, but resize dimensions can be zero -/

/-- C9 amended: every cell's crop box is clamped into
`[0, W] x [0, H]` (with a well-ordered box), and the resize target
dimensions are positive exactly when the scaled crop extent is at
least one pixel (`(right - left) * upscale >= 1`); for degenerate
images this extent drops below 1 and the computed dimension is 0, as
the counterexample shows. -/
theorem C9_amended_clamped (W H : ℕ) (M N : ℤ) (f u : ℚ) (i j : ℕ)
    (hf : 0 ≤ f) (hi : (i : ℤ) < M) (hj : (j : ℤ) < N)
    (hru : 1 ≤ ((cellPart W H M N f u i j).right -
      (cellPart W H M N f u i j).left) * u)
    (hbu : 1 ≤ ((cellPart W H M N f u i j).bottom -
      (cellPart W H M N f u i j).top) * u) :
    (0 ≤ (cellPart W H M N f u i j).left ∧
      (cellPart W H M N f u i j).left ≤ (cellPart W H M N f u i j).right ∧
      (cellPart W H M N f u i j).right ≤ (W : ℚ)) ∧
    (0 ≤ (cellPart W H M N f u i j).top ∧
      (cellPart W H M N f u i j).top ≤ (cellPart W H M N f u i j).bottom ∧
      (cellPart W H M N f u i j).bottom ≤ (H : ℚ)) ∧
    1 ≤ (cellPart W H M N f u i j).outW ∧
    1 ≤ (cellPart W H M N f u i j).outH := by
  have hiz : (0 : ℤ) ≤ (i : ℤ) := Int.natCast_nonneg i
  have hjz : (0 : ℤ) ≤ (j : ℤ) := Int.natCast_nonneg j
  have hM : (1 : ℤ) ≤ M := by omega
  have hN : (1 : ℤ) ≤ N := by omega
  have hMQ : (1 : ℚ) ≤ (M : ℚ) := by exact_mod_cast hM
  have hNQ : (1 : ℚ) ≤ (N : ℚ) := by exact_mod_cast hN
  have hMne : (M : ℚ) ≠ 0 := by intro h; rw [h] at hMQ; norm_num at hMQ
  have hNne : (N : ℚ) ≠ 0 := by intro h; rw [h] at hNQ; norm_num at hNQ
  have hiM : (i : ℚ) ≤ (M : ℚ) - 1 := by
    have : (i : ℤ) ≤ M - 1 := by omega
    have h2 : ((i : ℤ) : ℚ) ≤ ((M - 1 : ℤ) : ℚ) := by exact_mod_cast this
    push_cast at h2
    exact h2
  have hjN : (j : ℚ) ≤ (N : ℚ) - 1 := by
    have : (j : ℤ) ≤ N - 1 := by omega
    have h2 : ((j : ℤ) : ℚ) ≤ ((N - 1 : ℤ) : ℚ) := by exact_mod_cast this
    push_cast at h2
    exact h2
  have hgw0 : (0 : ℚ) ≤ (W : ℚ) / (M : ℚ) :=
    div_nonneg (by positivity) (by linarith)
  have hgh0 : (0 : ℚ) ≤ (H : ℚ) / (N : ℚ) :=
    div_nonneg (by positivity) (by linarith)
  have hMgw : (M : ℚ) * ((W : ℚ) / (M : ℚ)) = (W : ℚ) := by field_simp
  have hNgh : (N : ℚ) * ((H : ℚ) / (N : ℚ)) = (H : ℚ) := by field_simp
  have how0 : (0 : ℚ) ≤ (W : ℚ) / (M : ℚ) * f := mul_nonneg hgw0 hf
  have hoh0 : (0 : ℚ) ≤ (H : ℚ) / (N : ℚ) * f := mul_nonneg hgh0 hf
  have hiW : (i : ℚ) * ((W : ℚ) / (M : ℚ)) ≤ (W : ℚ) := by
    calc (i : ℚ) * ((W : ℚ) / (M : ℚ))
        ≤ ((M : ℚ) - 1) * ((W : ℚ) / (M : ℚ)) :=
          mul_le_mul_of_nonneg_right hiM hgw0
      _ ≤ (M : ℚ) * ((W : ℚ) / (M : ℚ)) := by nlinarith
      _ = (W : ℚ) := hMgw
  have hjH : (j : ℚ) * ((H : ℚ) / (N : ℚ)) ≤ (H : ℚ) := by
    calc (j : ℚ) * ((H : ℚ) / (N : ℚ))
        ≤ ((N : ℚ) - 1) * ((H : ℚ) / (N : ℚ)) :=
          mul_le_mul_of_nonneg_right hjN hgh0
      _ ≤ (N : ℚ) * ((H : ℚ) / (N : ℚ)) := by nlinarith
      _ = (H : ℚ) := hNgh
  refine ⟨⟨le_max_left _ _, ?_, min_le_left _ _⟩,
    ⟨le_max_left _ _, ?_, min_le_left _ _⟩, ?_, ?_⟩
  · simp only [cellPart]
    apply max_le
    · exact le_min (by positivity) (by positivity)
    · apply le_min
      · linarith
      · nlinarith
  · simp only [cellPart]
    apply max_le
    · exact le_min (by positivity) (by positivity)
    · apply le_min
      · linarith
      · nlinarith
  · have h0 : (0 : ℚ) ≤ ((cellPart W H M N f u i j).right -
        (cellPart W H M N f u i j).left) * u := by linarith
    have : (1 : ℤ) ≤ ⌊((cellPart W H M N f u i j).right -
        (cellPart W H M N f u i j).left) * u⌋ := by
      rw [show (1 : ℤ) = ⌊(1 : ℚ)⌋ by norm_num]
      exact Int.floor_le_floor hru
    simp only [cellPart] at this ⊢
    rw [pyInt, if_pos (by simpa using h0)]
    simpa using this
  · have h0 : (0 : ℚ) ≤ ((cellPart W H M N f u i j).bottom -
        (cellPart W H M N f u i j).top) * u := by linarith
    have : (1 : ℤ) ≤ ⌊((cellPart W H M N f u i j).bottom -
        (cellPart W H M N f u i j).top) * u⌋ := by
      rw [show (1 : ℤ) = ⌊(1 : ℚ)⌋ by norm_num]
      exact Int.floor_le_floor hbu
    simp only [cellPart] at this ⊢
    rw [pyInt, if_pos (by simpa using h0)]
    simpa using this


/-- C9 counterexample: the 1 x 1 image `cTiny` has a positive
bytes-per-pixel estimate (so it is a "non-degenerate" input in the
claim's sense), yet the first cell the loop evaluates has computed
resize width `int(0.275 * 1) = 0`, not positive: `resize((0, 0), ...)`
is what the code requests and PIL rejects, so `split_image` raises
rather than resizing and encoding successfully — refuting the claim
that dimensions stay positive and resize succeeds whenever the
estimate is positive. -/
theorem C9_counterexample :
    estimate_size_per_pixel cTiny.enc cTiny.W cTiny.H 5000 ≠ 0 ∧
    (cellPart 1 1 4 4 (1 / 10) 1 0 0).outW = 0 ∧
    split_image cTiny = some SplitResult.valueError :=
  ⟨est_cTiny, cTiny_first_outW, split_image_cTiny⟩

theorem C9_witness :
    (0 ≤ (cellPart 1000 1000 4 4 (1 / 10) 1 1 1).left ∧
      (cellPart 1000 1000 4 4 (1 / 10) 1 1 1).left ≤
        (cellPart 1000 1000 4 4 (1 / 10) 1 1 1).right ∧
      (cellPart 1000 1000 4 4 (1 / 10) 1 1 1).right ≤ ((1000 : ℕ) : ℚ)) ∧
    (0 ≤ (cellPart 1000 1000 4 4 (1 / 10) 1 1 1).top ∧
      (cellPart 1000 1000 4 4 (1 / 10) 1 1 1).top ≤
        (cellPart 1000 1000 4 4 (1 / 10) 1 1 1).bottom ∧
      (cellPart 1000 1000 4 4 (1 / 10) 1 1 1).bottom ≤ ((1000 : ℕ) : ℚ)) ∧
    1 ≤ (cellPart 1000 1000 4 4 (1 / 10) 1 1 1).outW ∧
    1 ≤ (cellPart 1000 1000 4 4 (1 / 10) 1 1 1).outH :=
  C9_amended_clamped 1000 1000 4 4 (1 / 10) 1 1 1 (by norm_num)
    (by norm_num) (by norm_num)
    (by simp only [cellPart]; norm_num)
    (by simp only [cellPart]; norm_num)


/-! ### C10: the upscale factor is not clamped at 1.0 -/

/-- The image content used for C10: the seed cell `(0,0)` encodes over
the ceiling exactly when rendered at 275 output pixels or more (the
first attempt, upscale `b > 1`), and the far corner cell `(3,3)`
encodes over the ceiling exactly when rendered at 274 output pixels or
fewer (the second attempt, upscale `b - 0.5 < 1`); everything else is
100 bytes. -/
def bigEnc : Part → ℕ := fun p =>
  if p.left = 0 ∧ p.top = 0 ∧ 275 ≤ p.outW then 8000000
  else if p.left = 725 ∧ p.top = 725 ∧ p.outW ≤ 274 then 8000000
  else 100

def c10 (b : ℚ) : Cfg where
  enc := bigEnc
  rsqrt := id
  W := 1000
  H := 1000
  overlap := 1 / 10
  max_size := 10485760
  base_upscale_factor := b
  min_grid_size := 4

theorem bigEnc_eq_100_of (p : Part)
    (h1 : ¬(p.left = 0 ∧ p.top = 0 ∧ 275 ≤ p.outW))
    (h2 : ¬(p.left = 725 ∧ p.top = 725 ∧ p.outW ≤ 274)) :
    bigEnc p = 100 := by
  simp only [bigEnc]
  rw [if_neg h1, if_neg h2]

theorem pyInt_275_le (u : ℚ) (hu0 : 0 < u) (hu1 : u < 1) :
    pyInt (275 * u) ≤ 274 := by
  rw [pyInt, if_pos (by positivity)]
  have h1 : ⌊275 * u⌋ < 275 := Int.floor_lt.mpr (by push_cast; nlinarith)
  omega

theorem pyInt_275_ge (b : ℚ) (hb : 1 ≤ b) : 275 ≤ pyInt (275 * b) := by
  rw [pyInt, if_pos (by nlinarith)]
  exact Int.le_floor.mpr (by push_cast; nlinarith)


theorem bigEnc_first (b : ℚ) (hb : 1 ≤ b) :
    bigEnc (cellPart 1000 1000 4 4 (1 / 10) b 0 0) = 8000000 := by
  simp only [bigEnc]
  rw [if_pos]
  refine ⟨?_, ?_, ?_⟩
  · rw [cell1000_left]
    norm_num
  · rw [cell1000_top]
    norm_num
  · rw [cell1000_outW]
    norm_num
    exact pyInt_275_ge b hb

theorem bigEnc_corner (b : ℚ) (hb1 : 1 < b) (hb2 : b < 3 / 2) :
    bigEnc (cellPart 1000 1000 4 4 (1 / 10) (b - 1 / 2) 3 3) = 8000000 := by
  have hu0 : (0 : ℚ) < b - 1 / 2 := by linarith
  have hu1 : b - 1 / 2 < 1 := by linarith
  simp only [bigEnc]
  rw [if_neg, if_pos]
  · refine ⟨?_, ?_, ?_⟩
    · rw [cell1000_left]
      norm_num
    · rw [cell1000_top]
      norm_num
    · rw [cell1000_outW]
      norm_num
      exact pyInt_275_le (b - 1 / 2) hu0 hu1
  · intro hcond
    obtain ⟨h1, _, _⟩ := hcond
    rw [cell1000_left] at h1
    norm_num at h1

theorem bigEnc_front_le (b : ℚ) (hb1 : 1 < b) (hb2 : b < 3 / 2) (i j : ℕ)
    (hi : i < 4) (hj : j < 4) (hne : ¬(i = 3 ∧ j = 3)) :
    (bigEnc (cellPart 1000 1000 4 4 (1 / 10) (b - 1 / 2) i j) : ℚ) ≤
      threshold (c10 b) := by
  have hu0 : (0 : ℚ) < b - 1 / 2 := by linarith
  have hu1 : b - 1 / 2 < 1 := by linarith
  have h100 : bigEnc (cellPart 1000 1000 4 4 (1 / 10) (b - 1 / 2) i j) = 100 := by
    apply bigEnc_eq_100_of
    · intro hcond
      obtain ⟨h1, h2, h3⟩ := hcond
      rw [cell1000_left] at h1
      rw [cell1000_top] at h2
      rw [cell1000_outW] at h3
      rcases Nat.eq_zero_or_pos i with rfl | hip
      · rcases Nat.eq_zero_or_pos j with rfl | hjp
        · norm_num at h3
          have := pyInt_275_le (b - 1 / 2) hu0 hu1
          omega
        · interval_cases j <;> norm_num at h2
      · interval_cases i <;> norm_num at h1
    · intro hcond
      obtain ⟨h1, h2, _⟩ := hcond
      rw [cell1000_left] at h1
      rw [cell1000_top] at h2
      by_cases hi3 : i = 3
      · subst hi3
        have hj3 : j < 3 := by omega
        interval_cases j <;> norm_num at h2
      · have hi3b : i < 3 := by omega
        interval_cases i <;> norm_num at h1
  rw [h100]
  norm_num [threshold, c10]


theorem eval_attempt1 (b : ℚ) (hb : 1 ≤ b) :
    evalCellsAux bigEnc (threshold (c10 b))
        (gridCells 1000 1000 4 4 (1 / 10) b) [] = CellsOut.overflow [] 8000000 := by
  have hp : threshold (c10 b) <
      (bigEnc (cellPart 1000 1000 4 4 (1 / 10) b 0 0) : ℚ) := by
    rw [bigEnc_first b hb]
    norm_num [threshold, c10]
  have hhead : gridCells 1000 1000 4 4 (1 / 10) b =
      cellPart 1000 1000 4 4 (1 / 10) b 0 0 ::
        (gridCells 1000 1000 4 4 (1 / 10) b).tail := rfl
  conv_lhs => rw [hhead]
  rw [evalCellsAux_head_overflow bigEnc (threshold (c10 b)) _ _ []
    (cell1000_dims_pos b (by linarith) 0 0 (by norm_num) (by norm_num)) hp]
  rw [List.reverse_nil, bigEnc_first b hb]

theorem eval_attempt2 (b : ℚ) (hb1 : 1 < b) (hb2 : b < 3 / 2) :
    evalCellsAux bigEnc (threshold (c10 b))
        (gridCells 1000 1000 4 4 (1 / 10) (b - 1 / 2)) [] =
      CellsOut.overflow
        ((gridCells 1000 1000 4 4 (1 / 10) (b - 1 / 2)).dropLast) 8000000 := by
  have hsplit : gridCells 1000 1000 4 4 (1 / 10) (b - 1 / 2) =
      (gridCells 1000 1000 4 4 (1 / 10) (b - 1 / 2)).dropLast ++
        [cellPart 1000 1000 4 4 (1 / 10) (b - 1 / 2) 3 3] := rfl
  have hdims : ∀ q ∈ (gridCells 1000 1000 4 4 (1 / 10) (b - 1 / 2)).dropLast,
      1 ≤ q.outW ∧ 1 ≤ q.outH := by
    intro q hq
    obtain ⟨i, j, hi, hj, rfl⟩ :=
      grid1000_mem (b - 1 / 2) q (List.dropLast_subset _ hq)
    exact cell1000_dims_pos (b - 1 / 2) (by linarith) i j hi hj
  have hfront : ∀ q ∈ (gridCells 1000 1000 4 4 (1 / 10) (b - 1 / 2)).dropLast,
      (bigEnc q : ℚ) ≤ threshold (c10 b) := by
    intro q hq
    have hexp : (gridCells 1000 1000 4 4 (1 / 10) (b - 1 / 2)).dropLast =
        [cellPart 1000 1000 4 4 (1 / 10) (b - 1 / 2) 0 0,
         cellPart 1000 1000 4 4 (1 / 10) (b - 1 / 2) 0 1,
         cellPart 1000 1000 4 4 (1 / 10) (b - 1 / 2) 0 2,
         cellPart 1000 1000 4 4 (1 / 10) (b - 1 / 2) 0 3,
         cellPart 1000 1000 4 4 (1 / 10) (b - 1 / 2) 1 0,
         cellPart 1000 1000 4 4 (1 / 10) (b - 1 / 2) 1 1,
         cellPart 1000 1000 4 4 (1 / 10) (b - 1 / 2) 1 2,
         cellPart 1000 1000 4 4 (1 / 10) (b - 1 / 2) 1 3,
         cellPart 1000 1000 4 4 (1 / 10) (b - 1 / 2) 2 0,
         cellPart 1000 1000 4 4 (1 / 10) (b - 1 / 2) 2 1,
         cellPart 1000 1000 4 4 (1 / 10) (b - 1 / 2) 2 2,
         cellPart 1000 1000 4 4 (1 / 10) (b - 1 / 2) 2 3,
         cellPart 1000 1000 4 4 (1 / 10) (b - 1 / 2) 3 0,
         cellPart 1000 1000 4 4 (1 / 10) (b - 1 / 2) 3 1,
         cellPart 1000 1000 4 4 (1 / 10) (b - 1 / 2) 3 2] := rfl
    rw [hexp] at hq
    simp only [List.mem_cons, List.not_mem_nil, or_false] at hq
    rcases hq with rfl | rfl | rfl | rfl | rfl | rfl | rfl | rfl | rfl | rfl |
      rfl | rfl | rfl | rfl | rfl
    · exact bigEnc_front_le b hb1 hb2 0 0 (by norm_num) (by norm_num) (by omega)
    · exact bigEnc_front_le b hb1 hb2 0 1 (by norm_num) (by norm_num) (by omega)
    · exact bigEnc_front_le b hb1 hb2 0 2 (by norm_num) (by norm_num) (by omega)
    · exact bigEnc_front_le b hb1 hb2 0 3 (by norm_num) (by norm_num) (by omega)
    · exact bigEnc_front_le b hb1 hb2 1 0 (by norm_num) (by norm_num) (by omega)
    · exact bigEnc_front_le b hb1 hb2 1 1 (by norm_num) (by norm_num) (by omega)
    · exact bigEnc_front_le b hb1 hb2 1 2 (by norm_num) (by norm_num) (by omega)
    · exact bigEnc_front_le b hb1 hb2 1 3 (by norm_num) (by norm_num) (by omega)
    · exact bigEnc_front_le b hb1 hb2 2 0 (by norm_num) (by norm_num) (by omega)
    · exact bigEnc_front_le b hb1 hb2 2 1 (by norm_num) (by norm_num) (by omega)
    · exact bigEnc_front_le b hb1 hb2 2 2 (by norm_num) (by norm_num) (by omega)
    · exact bigEnc_front_le b hb1 hb2 2 3 (by norm_num) (by norm_num) (by omega)
    · exact bigEnc_front_le b hb1 hb2 3 0 (by norm_num) (by norm_num) (by omega)
    · exact bigEnc_front_le b hb1 hb2 3 1 (by norm_num) (by norm_num) (by omega)
    · exact bigEnc_front_le b hb1 hb2 3 2 (by norm_num) (by norm_num) (by omega)
  have hp33 : threshold (c10 b) <
      (bigEnc (cellPart 1000 1000 4 4 (1 / 10) (b - 1 / 2) 3 3) : ℚ) := by
    rw [bigEnc_corner b hb1 hb2]
    norm_num [threshold, c10]
  have hd33 : 1 ≤ (cellPart 1000 1000 4 4 (1 / 10) (b - 1 / 2) 3 3).outW ∧
      1 ≤ (cellPart 1000 1000 4 4 (1 / 10) (b - 1 / 2) 3 3).outH :=
    cell1000_dims_pos (b - 1 / 2) (by linarith) 3 3 (by norm_num) (by norm_num)
  conv_lhs => rw [hsplit]
  rw [evalCellsAux_skip bigEnc (threshold (c10 b)) _ _ [] hdims hfront]
  rw [evalCellsAux_head_overflow bigEnc (threshold (c10 b)) _ [] _ hd33 hp33]
  rw [List.append_nil, List.reverse_reverse, bigEnc_corner b hb1 hb2]

theorem est_c10 (b : ℚ) :
    estimate_size_per_pixel (c10 b).enc (c10 b).W (c10 b).H 5000 ≠ 0 := by
  rw [estimate_size_per_pixel]
  have hs : (c10 b).enc (samplePart (c10 b).W (c10 b).H 5000) = 8000000 := by
    show bigEnc (samplePart (c10 b).W (c10 b).H 5000) = 8000000
    simp only [bigEnc]
    rw [if_pos]
    exact ⟨rfl, rfl, by norm_num [samplePart, c10]⟩
  rw [hs]
  norm_num [c10]

theorem fuel_c10 (b : ℚ) (hb1 : 1 < b) (hb2 : b < 3 / 2) :
    fuelBound (c10 b) = 8 := by
  rw [fuelBound, levelCount,
    show (2 * ((c10 b).base_upscale_factor - 1)) = 2 * (b - 1) from rfl,
    ceil_eq_of (2 * (b - 1)) 1 (by push_cast; linarith) (by push_cast; linarith)]
  norm_num [colBudget, c10]

/-- C10: the upscale factor is not clamped at 1.0.  For every
`base_upscale_factor` strictly between 1.0 and 1.5 there is an image
(`c10 b`) on which the first attempt is rejected with cells already
below the minimum dimension, upscale is reduced by 0.5 to `b - 0.5 < 1`,
and a full grid attempt is then evaluated at that sub-unit factor (all
16 cells encoded, the last one overflowing) before the loop gives up
and returns the 15 crops of the below-original-resolution grid. -/
theorem C10_upscale_below_one (b : ℚ) (hb1 : 1 < b) (hb2 : b < 3 / 2) :
    (c10 b).base_upscale_factor = b ∧ b - 1 / 2 < 1 ∧
    split_image (c10 b) =
      some (SplitResult.parts
        ((gridCells 1000 1000 4 4 (1 / 10) (b - 1 / 2)).dropLast)) := by
  refine ⟨rfl, by linarith, ?_⟩
  have hcond : ((1000 : ℕ) : ℚ) / ((4 : ℤ) : ℚ) < 500 ∨
      ((1000 : ℕ) : ℚ) / ((4 : ℤ) : ℚ) < 500 := Or.inl (by norm_num)
  rw [split_image, if_neg (est_c10 b), seedM_1000 _ rfl rfl rfl,
    seedN_1000 _ rfl rfl rfl, fuel_c10 b hb1 hb2,
    show (c10 b).base_upscale_factor = b from rfl,
    show (8 : ℕ) = 7 + 1 from rfl, splitLoop,
    show (c10 b).enc = bigEnc from rfl,
    show (c10 b).W = 1000 from rfl, show (c10 b).H = 1000 from rfl,
    show (c10 b).overlap = 1 / 10 from rfl,
    eval_attempt1 b (le_of_lt hb1)]
  simp only
  rw [if_pos hcond, if_pos hb1, seedM_1000 _ rfl rfl rfl,
    seedN_1000 _ rfl rfl rfl,
    show (7 : ℕ) = 6 + 1 from rfl, splitLoop,
    show (c10 b).enc = bigEnc from rfl,
    show (c10 b).W = 1000 from rfl, show (c10 b).H = 1000 from rfl,
    show (c10 b).overlap = 1 / 10 from rfl,
    eval_attempt2 b hb1 hb2]
  simp only
  rw [if_pos hcond, if_neg (show ¬(1 < b - 1 / 2) by linarith)]

theorem C10_witness :
    (c10 (6 / 5)).base_upscale_factor = 6 / 5 ∧ (6 / 5 : ℚ) - 1 / 2 < 1 ∧
    split_image (c10 (6 / 5)) =
      some (SplitResult.parts
        ((gridCells 1000 1000 4 4 (1 / 10) ((6 / 5) - 1 / 2)).dropLast)) :=
  C10_upscale_below_one (6 / 5) (by norm_num) (by norm_num)

end WaterSplit
